import Mathlib

/-!
Verification development for a document text-replacement service (t.py).

The program replaces a literal text `old_text` by `new_text` in PDF, CSV,
XML and XPT files, dispatches a single file by its extension
(`process_single_file`) and fans out over ZIP archives
(`extract_zip_and_process`).  Every handler is built on Python
`str.replace`, which this file embeds over `List Char`, together with the
per-format replacement logic, and proves the specified properties.
-/

namespace TextReplacer

/-- Fuel-driven core of Python `str.replace` for a non-empty pattern `old`:
scan the text left to right; whenever `old` is a prefix of the remaining
text, emit `new` and continue after the matched occurrence (matches are
non-overlapping), otherwise keep the current character.  The fuel only
serves structural termination; any `fuel ≥ s.length` gives the same
result (`pyReplaceFuel_congr`). -/
def pyReplaceFuel (old new : List Char) : Nat → List Char → List Char
  | 0, s => s
  | fuel + 1, s =>
    match s with
    | [] => []
    | c :: rest =>
      if old.isPrefixOf (c :: rest) then
        new ++ pyReplaceFuel old new fuel ((c :: rest).drop old.length)
      else
        c :: pyReplaceFuel old new fuel rest

/-- Python `old in s`: does `old` occur as a contiguous substring of `s`? -/
def containsSub (old : List Char) : List Char → Bool
  | [] => old.isEmpty
  | c :: rest => old.isPrefixOf (c :: rest) || containsSub old rest

/-- Python `s.replace(old, new)` on character lists: every non-overlapping,
left-to-right occurrence of `old` is replaced by `new`.  For an empty
`old`, Python inserts `new` before every character and once at the end. -/
def pyReplaceL (old new s : List Char) : List Char :=
  match old with
  | [] => new ++ s.flatMap (fun c => c :: new)
  | _ :: _ => pyReplaceFuel old new s.length s

/-- Python `s.replace(old, new)` on strings: the primitive every handler of
the program applies to cell values, XML text/tail/attribute values and to
the output-path computation (`path.replace('.pdf', '_modified.pdf')`). -/
def pyReplace (s old new : String) : String :=
  ⟨pyReplaceL old.data new.data s.data⟩

/-- Python `old in s` on strings. -/
def strContains (old s : String) : Bool :=
  containsSub old.data s.data

theorem pyReplaceFuel_congr (old new : List Char) (hold : old ≠ []) :
    ∀ fuel₁ fuel₂ s, s.length ≤ fuel₁ → s.length ≤ fuel₂ →
      pyReplaceFuel old new fuel₁ s = pyReplaceFuel old new fuel₂ s := by
  intro fuel₁
  induction fuel₁ with
  | zero =>
    intro fuel₂ s h1 _
    have hs : s = [] := List.length_eq_zero.mp (Nat.le_zero.mp h1)
    subst hs
    cases fuel₂ <;> simp [pyReplaceFuel]
  | succ f ih =>
    intro fuel₂ s h1 h2
    cases s with
    | nil => cases fuel₂ <;> simp [pyReplaceFuel]
    | cons c rest =>
      have holdLen : 1 ≤ old.length := by
        cases old with
        | nil => exact absurd rfl hold
        | cons _ _ => simp
      cases fuel₂ with
      | zero => simp at h2
      | succ g =>
        simp only [pyReplaceFuel]
        by_cases hp : old.isPrefixOf (c :: rest)
        · rw [if_pos hp, if_pos hp]
          have hdl : ((c :: rest).drop old.length).length ≤ f := by
            simp only [List.length_drop, List.length_cons]
            simp only [List.length_cons] at h1
            omega
          have hdg : ((c :: rest).drop old.length).length ≤ g := by
            simp only [List.length_drop, List.length_cons]
            simp only [List.length_cons] at h2
            omega
          rw [ih g _ hdl hdg]
        · rw [if_neg hp, if_neg hp]
          have hrl : rest.length ≤ f := by
            simp only [List.length_cons] at h1
            omega
          have hrg : rest.length ≤ g := by
            simp only [List.length_cons] at h2
            omega
          rw [ih g rest hrl hrg]

theorem pyReplaceL_nil (old new : List Char) (hold : old ≠ []) :
    pyReplaceL old new [] = [] := by
  cases old with
  | nil => exact absurd rfl hold
  | cons o os => simp [pyReplaceL, pyReplaceFuel]

theorem pyReplaceL_cons_pos (old new : List Char) (hold : old ≠ []) (c : Char)
    (rest : List Char) (hp : old.isPrefixOf (c :: rest)) :
    pyReplaceL old new (c :: rest) =
      new ++ pyReplaceL old new ((c :: rest).drop old.length) := by
  have holdLen : 1 ≤ old.length := by
    cases old with
    | nil => exact absurd rfl hold
    | cons _ _ => simp
  cases old with
  | nil => exact absurd rfl hold
  | cons o os =>
    show pyReplaceFuel (o :: os) new (rest.length + 1) (c :: rest) = _
    rw [show pyReplaceFuel (o :: os) new (rest.length + 1) (c :: rest) =
        if (o :: os).isPrefixOf (c :: rest) then
          new ++ pyReplaceFuel (o :: os) new rest.length
            ((c :: rest).drop (o :: os).length)
        else c :: pyReplaceFuel (o :: os) new rest.length rest from rfl,
      if_pos hp]
    have hshape : ((c :: rest).drop (o :: os).length).length ≤ rest.length := by
      simp only [List.length_drop, List.length_cons]
      omega
    cases hdrop : (c :: rest).drop (o :: os).length with
    | nil =>
      congr 1
      cases rest.length <;> simp [pyReplaceFuel, pyReplaceL]
    | cons d ds =>
      rw [hdrop] at hshape
      congr 1
      rw [show pyReplaceL (o :: os) new (d :: ds) =
          pyReplaceFuel (o :: os) new (d :: ds).length (d :: ds) from rfl]
      exact pyReplaceFuel_congr (o :: os) new hold rest.length (d :: ds).length
        (d :: ds) hshape le_rfl

theorem pyReplaceL_cons_neg (old new : List Char) (hold : old ≠ []) (c : Char)
    (rest : List Char) (hp : ¬ old.isPrefixOf (c :: rest)) :
    pyReplaceL old new (c :: rest) = c :: pyReplaceL old new rest := by
  cases old with
  | nil => exact absurd rfl hold
  | cons o os =>
    show pyReplaceFuel (o :: os) new (rest.length + 1) (c :: rest) = _
    rw [show pyReplaceFuel (o :: os) new (rest.length + 1) (c :: rest) =
        if (o :: os).isPrefixOf (c :: rest) then
          new ++ pyReplaceFuel (o :: os) new rest.length
            ((c :: rest).drop (o :: os).length)
        else c :: pyReplaceFuel (o :: os) new rest.length rest from rfl,
      if_neg hp]
    cases rest with
    | nil => simp [pyReplaceL, pyReplaceFuel]
    | cons d ds =>
      have := pyReplaceFuel_congr (o :: os) new hold (d :: ds).length
        (d :: ds).length (d :: ds) le_rfl le_rfl
      rfl

/-- If `old` does not occur in `s`, `str.replace` returns `s` unchanged. -/
theorem pyReplaceL_of_not_contains (old new : List Char) (hold : old ≠ []) :
    ∀ s, containsSub old s = false → pyReplaceL old new s = s := by
  intro s
  induction s with
  | nil => intro _; exact pyReplaceL_nil old new hold
  | cons c rest ih =>
    intro h
    simp only [containsSub, Bool.or_eq_false_iff] at h
    rw [pyReplaceL_cons_neg old new hold c rest (by simp [h.1]), ih h.2]

/-- Packaged first-occurrence step: replacing in `p ++ r` when the text
starts with the pattern `p` replaces that occurrence and continues after
it — the match consumes `p` and scanning resumes in `r` only
(non-overlapping). -/
theorem pyReplaceL_append_self (p q r : List Char) (hp : p ≠ []) :
    pyReplaceL p q (p ++ r) = q ++ pyReplaceL p q r := by
  cases p with
  | nil => exact absurd rfl hp
  | cons x xs =>
    have hpre : (x :: xs).isPrefixOf (x :: (xs ++ r)) := by
      rw [List.isPrefixOf_iff_prefix]
      exact ⟨r, by simp⟩
    rw [List.cons_append, pyReplaceL_cons_pos (x :: xs) q hp x (xs ++ r) hpre]
    congr 1
    rw [show x :: (xs ++ r) = (x :: xs) ++ r from rfl, List.drop_left]

/-- Left-to-right semantics: when the occurrence of `old` at position
`a.length` is leftmost (nothing earlier matches), `str.replace` keeps `a`,
substitutes `new` for the occurrence and continues in `b` only. -/
theorem pyReplaceL_leftmost (old new : List Char) (hold : old ≠ []) :
    ∀ a b, (∀ k, k < a.length → old.isPrefixOf ((a ++ old ++ b).drop k) = false) →
      pyReplaceL old new (a ++ old ++ b) = a ++ new ++ pyReplaceL old new b := by
  intro a
  induction a with
  | nil =>
    intro b _
    simpa using pyReplaceL_append_self old new b hold
  | cons c a ih =>
    intro b hfirst
    have h0 : old.isPrefixOf (c :: (a ++ old ++ b)) = false := by
      have := hfirst 0 (by simp)
      simpa using this
    have h0' : ¬ old.isPrefixOf (c :: (a ++ old ++ b)) = true := by
      simp only [h0]
      exact Bool.false_ne_true
    rw [show (c :: a) ++ old ++ b = c :: (a ++ old ++ b) by simp,
      pyReplaceL_cons_neg old new hold c (a ++ old ++ b) h0']
    have hshift : ∀ k, k < a.length →
        old.isPrefixOf ((a ++ old ++ b).drop k) = false := by
      intro k hk
      have := hfirst (k + 1) (by simp; omega)
      simpa [List.cons_append] using this
    rw [ih b hshift]
    simp

/-- Core inversion lemma: if no character of `new` occurs in `s` (so the
inserted copies of `new` are the only matches the second pass can find),
then replacing `old` by `new` and afterwards `new` by `old` restores `s`. -/
theorem pyReplaceL_roundtrip (old new : List Char) (hold : old ≠ [])
    (hnew : new ≠ []) :
    ∀ s, (∀ c, c ∈ new → c ∉ s) →
      pyReplaceL new old (pyReplaceL old new s) = s := by
  suffices key : ∀ n s, s.length ≤ n → (∀ c, c ∈ new → c ∉ s) →
      pyReplaceL new old (pyReplaceL old new s) = s by
    intro s hs
    exact key s.length s le_rfl hs
  intro n
  induction n with
  | zero =>
    intro s hlen _
    have hs : s = [] := List.length_eq_zero.mp (Nat.le_zero.mp hlen)
    subst hs
    rw [pyReplaceL_nil old new hold, pyReplaceL_nil new old hnew]
  | succ n ih =>
    intro s hlen hdisj
    cases s with
    | nil => rw [pyReplaceL_nil old new hold, pyReplaceL_nil new old hnew]
    | cons c rest =>
      by_cases hp : old.isPrefixOf (c :: rest)
      · have hpre : old <+: (c :: rest) := List.isPrefixOf_iff_prefix.mp hp
        obtain ⟨t, ht⟩ := hpre
        have holdLen : 1 ≤ old.length := by
          cases old with
          | nil => exact absurd rfl hold
          | cons _ _ => simp
        have htlen : t.length ≤ n := by
          have := congrArg List.length ht
          simp only [List.length_append, List.length_cons] at this
          simp only [List.length_cons] at hlen
          omega
        have htdisj : ∀ d, d ∈ new → d ∉ t := by
          intro d hd hmem
          exact hdisj d hd (by rw [← ht]; exact List.mem_append_right old hmem)
        rw [← ht, pyReplaceL_append_self old new t hold,
          pyReplaceL_append_self new old (pyReplaceL old new t) hnew,
          ih t htlen htdisj]
      · rw [pyReplaceL_cons_neg old new hold c rest hp]
        have hstep : new.isPrefixOf (c :: pyReplaceL old new rest) = false := by
          cases hnp : new.isPrefixOf (c :: pyReplaceL old new rest) with
          | false => rfl
          | true =>
            exfalso
            have hpre := List.isPrefixOf_iff_prefix.mp hnp
            cases new with
            | nil => exact absurd rfl hnew
            | cons m ms =>
              have hm := (List.cons_prefix_cons.mp hpre).1
              exact hdisj m (List.mem_cons_self m ms)
                (by rw [hm]; exact List.mem_cons_self c rest)
        rw [pyReplaceL_cons_neg new old hnew c (pyReplaceL old new rest)
          (by simp [hstep])]
        have hrest : rest.length ≤ n := by
          simp at hlen
          omega
        rw [ih rest hrest fun d hd hmem => hdisj d hd (List.mem_cons_of_mem c hmem)]

/-! ## Paths and extensions

`process_single_file` computes `os.path.splitext(file_path)[1].lower()`.
`splitextExt` follows the POSIX `splitext`: the extension starts at the
last dot of the path, provided that dot lies inside the basename (after
the last slash) and not every basename character before it is a dot. -/

/-- ASCII case mapping of `str.lower` (the extensions compared against are
all ASCII). -/
def lowerChar (c : Char) : Char :=
  if 'A' ≤ c ∧ c ≤ 'Z' then Char.ofNat (c.toNat + 32) else c

def lowerStr (s : String) : String :=
  ⟨s.data.map lowerChar⟩

/-- Index of the last occurrence of `c`, like Python `s.rfind(c)`. -/
def lastIdxOf (c : Char) : List Char → Option Nat
  | [] => none
  | x :: xs =>
    match lastIdxOf c xs with
    | some i => some (i + 1)
    | none => if x = c then some 0 else none

/-- The extension part of `os.path.splitext` (including its dot; empty when
the basename has no usable dot, e.g. for a dotfile like `.bashrc`). -/
def splitextExtL (s : List Char) : List Char :=
  match lastIdxOf '.' s with
  | none => []
  | some d =>
    let fi : Nat :=
      match lastIdxOf '/' s with
      | some i => i + 1
      | none => 0
    if fi ≤ d ∧ ((s.drop fi).take (d - fi)).any (fun c => c != '.') then
      s.drop d
    else []

def splitextExt (p : String) : String :=
  ⟨splitextExtL p.data⟩

/-- `os.path.splitext(path)[1].lower()` as the dispatcher computes it. -/
def fileExt (path : String) : String :=
  lowerStr (splitextExt path)

/-! ## Tabular formats (CSV via pandas, XPT via pyreadstat)

A loaded table keeps its column names and its cells; a cell read as
missing (NaN) is `none` and `fillna('')` turns it into the empty string.
`replace_text_in_csv` / `replace_text_in_xpt` then run
`df[col].astype(str).str.replace(old, new, regex=False)` over every
column, i.e. the Python `str.replace` on every cell, and write the frame
back with the same columns (the loop runs column by column; cell by cell
over a rectangular frame is the same transformation). -/

structure DataFrame where
  columns : List String
  rows : List (List (Option String))

/-- What a successful CSV pass writes: the output path
(`input.replace('.csv', '_modified.csv')`), the unchanged header and the
substituted cells (`to_csv(index=False)` keeps the column order). -/
structure CsvResult where
  outPath : String
  header : List String
  rows : List (List String)
  deriving DecidableEq

/-- What a successful XPT pass writes; `write_xport` also receives the
table name, `meta.table_name` with fallback `DATA` when that is falsy. -/
structure XptResult where
  outPath : String
  header : List String
  rows : List (List String)
  tableName : String
  deriving DecidableEq

/-- One cell through the pipeline: `fillna('')`, `astype(str)`, then
`str.replace(old, new, regex=False)`. -/
def replaceCell (old new : String) (cell : Option String) : String :=
  pyReplace (cell.getD "") old new

def csvPayload (path : String) (df : DataFrame) (old new : String) : CsvResult :=
  { outPath := pyReplace path ".csv" "_modified.csv"
    header := df.columns
    rows := df.rows.map (List.map (replaceCell old new)) }

def xptPayload (path : String) (df : DataFrame) (metaName : String)
    (old new : String) : XptResult :=
  { outPath := pyReplace path ".xpt" "_modified.xpt"
    header := df.columns
    rows := df.rows.map (List.map (replaceCell old new))
    tableName := if metaName = "" then "DATA" else metaName }

/-! ## XML (ElementTree)

An element has a tag, ordered attributes, optional text, optional tail
and children.  `replace_in_element` substitutes in the text when
`elem.text and old_text in elem.text` (so `None` and the falsy empty
string are left alone), likewise in the tail, rewrites every attribute
value containing the pattern, then recurses into the children. -/

mutual
inductive XmlElem : Type where
  | mk (tag : String) (attrib : List (String × String)) (text : Option String)
      (tail : Option String) (children : XmlForest)

inductive XmlForest : Type where
  | nil
  | cons (head : XmlElem) (rest : XmlForest)
end

/-- The guarded text/tail update: `if elem.text and old_text in elem.text:
elem.text = elem.text.replace(old_text, new_text)`. -/
def replaceOptText (old new : String) : Option String → Option String
  | none => none
  | some t =>
    if !t.isEmpty && strContains old t then some (pyReplace t old new)
    else some t

/-- The attribute loop: `for k, v in elem.attrib.items(): if old_text in v:
elem.attrib[k] = v.replace(old_text, new_text)` (keys and order kept). -/
def replaceAttrs (old new : String) (attrib : List (String × String)) :
    List (String × String) :=
  attrib.map fun kv =>
    if strContains old kv.2 then (kv.1, pyReplace kv.2 old new) else kv

mutual
/-- `replace_in_element` from the source, on one element. -/
def replace_in_element (old new : String) : XmlElem → XmlElem
  | .mk tag attrib text tail children =>
    .mk tag (replaceAttrs old new attrib) (replaceOptText old new text)
      (replaceOptText old new tail) (replaceForest old new children)

/-- The recursion `for child in elem: replace_in_element(child)`. -/
def replaceForest (old new : String) : XmlForest → XmlForest
  | .nil => .nil
  | .cons e rest => .cons (replace_in_element old new e) (replaceForest old new rest)
end

mutual
/-- Number of elements of a tree. -/
def countElems : XmlElem → Nat
  | .mk _ _ _ _ children => 1 + countForest children

def countForest : XmlForest → Nat
  | .nil => 0
  | .cons e rest => countElems e + countForest rest
end

mutual
/-- The structural skeleton of a tree: every string value (attribute
values, text, tail) blanked, tags, attribute names/order, nesting and
child order kept.  Two trees with the same skeleton differ at most in
their string content. -/
def skeleton : XmlElem → XmlElem
  | .mk tag attrib text tail children =>
    .mk tag (attrib.map fun kv => (kv.1, "")) (text.map fun _ => "")
      (tail.map fun _ => "") (skeletonForest children)

def skeletonForest : XmlForest → XmlForest
  | .nil => .nil
  | .cons e rest => .cons (skeleton e) (skeletonForest rest)
end

/-! ## PDF (PyMuPDF)

A page is modelled by what the library reports to the program: the
rectangles `page.search_for(old_text)` returns, the structured text
`page.get_text("dict")['blocks']` before any mutation, and the layout
that a lookup after `apply_redactions` would see (`postBlocks`) — which
the program must never consult, because it snapshots the blocks before
redacting.  A block without a `lines` key (an image block) is `none`.
Sizes are modelled as rationals; `span.get("size", 12)` and the loop
seed are the default 12. -/

structure Span where
  text : Option String
  size : Option ℚ

abbrev Line := List Span

abbrev Block := Option (List Line)

structure Rect where
  x0 : ℚ
  y0 : ℚ
  x1 : ℚ
  y1 : ℚ

/-- `page.insert_text(point, new_text, fontsize=..., fontname=...)`. -/
structure Insertion where
  x : ℚ
  y : ℚ
  text : String
  fontsize : ℚ
  fontname : String

def spanText (sp : Span) : String := sp.text.getD ""

def spanSize (sp : Span) : ℚ := sp.size.getD 12

def spanMatches (old : String) (sp : Span) : Bool :=
  strContains old (spanText sp)

/-- The innermost span loop with its `break`: the size of the first span of
the line whose text contains `old_text`, if any. -/
def lineHit (old : String) (line : Line) : Option ℚ :=
  (line.find? (spanMatches old)).map spanSize

/-- The font-size inference of `replace_text_in_pdf`: `original_fontsize`
starts at 12 and is overwritten by each line that holds a matching span
(the `break` leaves the line and block loops running), so the final value
is the size of the first matching span of the last matching line, or 12
when no span matches. -/
def inferFontSize (old : String) (blocks : List Block) : ℚ :=
  blocks.foldl
    (fun acc block =>
      match block with
      | none => acc
      | some lines => lines.foldl (fun acc2 line => (lineHit old line).getD acc2) acc)
    12

structure PdfPage where
  found : List Rect
  blocks : List Block
  postBlocks : List Block

/-- One page of `replace_text_in_pdf`: when the search found no instance
the page is untouched; otherwise the pre-mutation blocks are snapshotted,
the rectangles are redacted, and for each rectangle `new_text` is inserted
at `(rect.x0, rect.y1 - 2.5)` in `Times-Roman` at the size inferred from
the snapshot (the same scan runs per rectangle and yields the same size). -/
def processPage (old new : String) (pg : PdfPage) : List Insertion :=
  if pg.found.isEmpty then []
  else
    pg.found.map fun r =>
      { x := r.x0
        y := r.y1 - 5 / 2
        text := new
        fontsize := inferFontSize old pg.blocks
        fontname := "Times-Roman" }

def pdfPayload (path : String) (pages : List PdfPage) (old new : String) :
    String × List (List Insertion) :=
  (pyReplace path ".pdf" "_modified.pdf", pages.map (processPage old new))

/-! ## Files, handlers and the dispatcher

A file on disk is its path plus what each format library would yield for
it: `asPdf` is the document `fitz.open` gives (or `none` when it raises),
and likewise for `pd.read_csv`, `ET.parse` and `pyreadstat.read_xport`.
Each `replace_text_in_*` wraps its body in `try/except` and returns the
output path on success and `None` on any error, so each handler is an
`Option`-valued function that is `none` exactly when the parse fails. -/

structure DiskFile where
  path : String
  asPdf : Option (List PdfPage)
  asCsv : Option DataFrame
  asXml : Option XmlElem
  asXpt : Option (DataFrame × String)

def replace_text_in_pdf (f : DiskFile) (old new : String) :
    Option (String × List (List Insertion)) :=
  f.asPdf.map fun pages => pdfPayload f.path pages old new

def replace_text_in_csv (f : DiskFile) (old new : String) : Option CsvResult :=
  f.asCsv.map fun df => csvPayload f.path df old new

def replace_text_in_xml (f : DiskFile) (old new : String) :
    Option (String × XmlElem) :=
  f.asXml.map fun root =>
    (pyReplace f.path ".xml" "_modified.xml", replace_in_element old new root)

def replace_text_in_xpt (f : DiskFile) (old new : String) : Option XptResult :=
  f.asXpt.map fun dm => xptPayload f.path dm.1 dm.2 old new

/-- `process_single_file`: dispatch on the lowered extension; a recognized
extension runs its handler and forwards the output path it returned (or
`None` when the handler failed); any other extension returns `None`
without attempting anything. -/
def process_single_file (f : DiskFile) (old new : String) : Option String :=
  let ext := fileExt f.path
  if ext = ".pdf" then (replace_text_in_pdf f old new).map Prod.fst
  else if ext = ".csv" then (replace_text_in_csv f old new).map CsvResult.outPath
  else if ext = ".xml" then (replace_text_in_xml f old new).map Prod.fst
  else if ext = ".xpt" then (replace_text_in_xpt f old new).map XptResult.outPath
  else none

/-! ## ZIP batch processing -/

def supported_extensions : List String := [".pdf", ".csv", ".xml", ".xpt"]

def isSupported (f : DiskFile) : Bool :=
  supported_extensions.contains (fileExt f.path)

/-- The walk over the extracted folder: each file with a supported
extension is processed and its output path collected when the result is
truthy; a member whose processing fails contributes nothing and the walk
continues (the per-member `try/except ... continue`). -/
def batchOutputs (old new : String) : List DiskFile → List String
  | [] => []
  | f :: rest =>
    if isSupported f then
      match process_single_file f old new with
      | some p => if p.isEmpty then batchOutputs old new rest else p :: batchOutputs old new rest
      | none => batchOutputs old new rest
    else batchOutputs old new rest

/-- An uploaded archive: its path and, when `zipfile` can open and extract
it, the contained files in walk order; `none` when the container itself
is unreadable and `ZipFile`/`extractall` raises. -/
structure ZipArchive where
  path : String
  entries : Option (List DiskFile)

/-- Outcome of `extract_zip_and_process`: the returned value or the
propagated exception, the collected member outputs, and whether the
scratch extraction folder was removed (the `finally` block runs
`shutil.rmtree` on every exit path, normal return and raise alike). -/
structure BatchResult where
  result : Except Unit (Option String)
  outputs : List String
  scratchRemoved : Bool

/-- `extract_zip_and_process`: make the scratch folder, try to extract —
an unreadable container raises out of the function before any member is
processed — then process every supported member, and repack into
`zip_path.replace('.zip', '_modified.zip')` when at least one output was
produced, returning `None` otherwise; the `finally` removes the scratch
folder in all three cases. -/
def extract_zip_and_process (z : ZipArchive) (old new : String) : BatchResult :=
  match z.entries with
  | none => { result := Except.error (), outputs := [], scratchRemoved := true }
  | some files =>
    let outs := batchOutputs old new files
    { result := Except.ok
        (if outs.isEmpty then none
         else some (pyReplace z.path ".zip" "_modified.zip"))
      outputs := outs
      scratchRemoved := true }

/-! ## String-level corollaries and guard elimination -/

theorem pyReplace_of_not_contains (s old new : String) (hold : old.data ≠ [])
    (h : strContains old s = false) : pyReplace s old new = s := by
  show (⟨pyReplaceL old.data new.data s.data⟩ : String) = s
  rw [pyReplaceL_of_not_contains old.data new.data hold s.data h]

/-- No character of `new` occurs in `t` (the non-interference condition of
the two-pass inversion). -/
def noNewChars (new t : String) : Bool :=
  new.data.all fun c => !t.data.contains c

theorem pyReplace_roundtrip (old new s : String) (hold : old.data ≠ [])
    (hnew : new.data ≠ []) (h : noNewChars new s = true) :
    pyReplace (pyReplace s old new) new old = s := by
  show (⟨pyReplaceL new.data old.data (pyReplaceL old.data new.data s.data)⟩ : String) = s
  rw [pyReplaceL_roundtrip old.data new.data hold hnew s.data]
  intro c hc
  simp only [noNewChars, List.all_eq_true] at h
  have := h c hc
  simpa using this

theorem replaceOptText_eq_map (old new : String) (hold : old.data ≠ [])
    (t : Option String) :
    replaceOptText old new t = t.map fun x => pyReplace x old new := by
  cases t with
  | none => rfl
  | some x =>
    show (if !x.isEmpty && strContains old x then some (pyReplace x old new)
          else some x) = some (pyReplace x old new)
    by_cases h1 : (!x.isEmpty && strContains old x) = true
    · rw [if_pos h1]
    · rw [if_neg h1]
      congr 1
      rcases Bool.and_eq_false_iff.mp (Bool.eq_false_iff.mpr h1) with h2 | h2
      · have hx : x = "" := by
          have : x.isEmpty = true := by
            cases he : x.isEmpty
            · rw [he] at h2; simp at h2
            · rfl
          exact (String.isEmpty_iff x).mp this
        subst hx
        show ("" : String) = ⟨pyReplaceL old.data new.data []⟩
        rw [pyReplaceL_nil old.data new.data hold]
      · exact (pyReplace_of_not_contains x old new hold h2).symm

theorem replaceAttrs_eq_map (old new : String) (hold : old.data ≠ [])
    (attrib : List (String × String)) :
    replaceAttrs old new attrib =
      attrib.map fun kv => (kv.1, pyReplace kv.2 old new) := by
  unfold replaceAttrs
  apply List.map_congr_left
  intro kv _
  by_cases h : strContains old kv.2 = true
  · rw [if_pos h]
  · rw [if_neg h]
    rw [pyReplace_of_not_contains kv.2 old new hold (Bool.eq_false_iff.mpr h)]

/-! ## XML: shape preservation and two-pass inversion -/

theorem replaceAttrs_skeleton (old new : String) (attrib : List (String × String)) :
    (replaceAttrs old new attrib).map (fun kv => (kv.1, (""))) =
      attrib.map fun kv => (kv.1, ("")) := by
  unfold replaceAttrs
  rw [List.map_map]
  apply List.map_congr_left
  intro kv _
  by_cases h : strContains old kv.2 = true <;> simp [h, Function.comp]

theorem replaceOptText_skeleton (old new : String) (t : Option String) :
    (replaceOptText old new t).map (fun _ => ("")) = t.map fun _ => ("") := by
  cases t with
  | none => rfl
  | some x =>
    show (if !x.isEmpty && strContains old x then some (pyReplace x old new)
          else some x).map (fun _ => ("")) = _
    by_cases h : (!x.isEmpty && strContains old x) = true
    · rw [if_pos h]; rfl
    · rw [if_neg h]

mutual
theorem countElems_replace (old new : String) :
    ∀ e, countElems (replace_in_element old new e) = countElems e
  | .mk tag attrib text tail children => by
    simp only [replace_in_element, countElems,
      countForest_replace old new children]

theorem countForest_replace (old new : String) :
    ∀ l, countForest (replaceForest old new l) = countForest l
  | .nil => rfl
  | .cons e rest => by
    simp only [replaceForest, countForest, countElems_replace old new e,
      countForest_replace old new rest]
end

mutual
theorem skeleton_replace (old new : String) :
    ∀ e, skeleton (replace_in_element old new e) = skeleton e
  | .mk tag attrib text tail children => by
    simp only [replace_in_element, skeleton,
      skeletonForest_replace old new children, replaceAttrs_skeleton,
      replaceOptText_skeleton]

theorem skeletonForest_replace (old new : String) :
    ∀ l, skeletonForest (replaceForest old new l) = skeletonForest l
  | .nil => rfl
  | .cons e rest => by
    simp only [replaceForest, skeletonForest, skeleton_replace old new e,
      skeletonForest_replace old new rest]
end

/-- `noNewChars` for an optional text value (`none` holds vacuously). -/
def optNoNew (new : String) : Option String → Bool
  | none => true
  | some t => noNewChars new t

/-- `noNewChars` for every attribute value. -/
def attrsNoNew (new : String) (attrib : List (String × String)) : Bool :=
  attrib.all fun kv => noNewChars new kv.2

mutual
/-- No character of `new` occurs in any text, tail or attribute value of
the tree. -/
def elemNoNew (new : String) : XmlElem → Bool
  | .mk _ attrib text tail children =>
    attrsNoNew new attrib && optNoNew new text && optNoNew new tail &&
      forestNoNew new children

def forestNoNew (new : String) : XmlForest → Bool
  | .nil => true
  | .cons e rest => elemNoNew new e && forestNoNew new rest
end

theorem replaceOptText_roundtrip (old new : String) (hold : old.data ≠ [])
    (hnew : new.data ≠ []) (t : Option String) (h : optNoNew new t = true) :
    replaceOptText new old (replaceOptText old new t) = t := by
  rw [replaceOptText_eq_map old new hold, replaceOptText_eq_map new old hnew,
    Option.map_map]
  cases t with
  | none => rfl
  | some x =>
    show some (pyReplace (pyReplace x old new) new old) = some x
    rw [pyReplace_roundtrip old new x hold hnew h]

theorem replaceAttrs_roundtrip (old new : String) (hold : old.data ≠ [])
    (hnew : new.data ≠ []) (attrib : List (String × String))
    (h : attrsNoNew new attrib = true) :
    replaceAttrs new old (replaceAttrs old new attrib) = attrib := by
  rw [replaceAttrs_eq_map old new hold, replaceAttrs_eq_map new old hnew,
    List.map_map]
  conv_rhs => rw [← List.map_id attrib]
  apply List.map_congr_left
  intro kv hkv
  have hc : noNewChars new kv.2 = true := by
    simp only [attrsNoNew, List.all_eq_true] at h
    exact h kv hkv
  simp only [Function.comp, id]
  rw [pyReplace_roundtrip old new kv.2 hold hnew hc]

mutual
theorem replace_in_element_roundtrip (old new : String) (hold : old.data ≠ [])
    (hnew : new.data ≠ []) :
    ∀ e, elemNoNew new e = true →
      replace_in_element new old (replace_in_element old new e) = e
  | .mk tag attrib text tail children => by
    intro h
    simp only [elemNoNew, Bool.and_eq_true] at h
    obtain ⟨⟨⟨ha, ht⟩, htl⟩, hc⟩ := h
    simp only [replace_in_element]
    rw [replaceAttrs_roundtrip old new hold hnew attrib ha,
      replaceOptText_roundtrip old new hold hnew text ht,
      replaceOptText_roundtrip old new hold hnew tail htl,
      replaceForest_roundtrip old new hold hnew children hc]

theorem replaceForest_roundtrip (old new : String) (hold : old.data ≠ [])
    (hnew : new.data ≠ []) :
    ∀ l, forestNoNew new l = true →
      replaceForest new old (replaceForest old new l) = l
  | .nil => fun _ => rfl
  | .cons e rest => by
    intro h
    simp only [forestNoNew, Bool.and_eq_true] at h
    simp only [replaceForest]
    rw [replace_in_element_roundtrip old new hold hnew e h.1,
      replaceForest_roundtrip old new hold hnew rest h.2]
end

/-- Two passes over a table of cells restore the original cells under the
non-interference condition. -/
theorem cells_roundtrip (old new : String) (hold : old.data ≠ [])
    (hnew : new.data ≠ []) (rows : List (List String))
    (h : ∀ r ∈ rows, ∀ cell ∈ r, noNewChars new cell = true) :
    (rows.map (List.map fun c => pyReplace c old new)).map
        (List.map fun c => pyReplace c new old) = rows := by
  rw [List.map_map]
  conv_rhs => rw [← List.map_id rows]
  apply List.map_congr_left
  intro r hr
  simp only [Function.comp, List.map_map, id]
  conv_rhs => rw [← List.map_id r]
  apply List.map_congr_left
  intro cell hcell
  simp only [Function.comp, id]
  exact pyReplace_roundtrip old new cell hold hnew (h r hr cell hcell)

/-! ## PDF: font-size inference -/

/-- All lines of the blocks that carry a `lines` key, in scan order. -/
def blockLines : List Block → List Line
  | [] => []
  | none :: bs => blockLines bs
  | some ls :: bs => ls ++ blockLines bs

/-- `sp` is one of the spans of the structured text snapshot. -/
def SpanIn (sp : Span) (blocks : List Block) : Prop :=
  ∃ ls, some ls ∈ blocks ∧ ∃ line ∈ ls, sp ∈ line

theorem inferFontSize_eq (old : String) (blocks : List Block) :
    inferFontSize old blocks =
      (blockLines blocks).foldl (fun a line => (lineHit old line).getD a) 12 := by
  suffices key : ∀ (bs : List Block) (acc : ℚ),
      bs.foldl
        (fun a block =>
          match block with
          | none => a
          | some lines => lines.foldl (fun a2 line => (lineHit old line).getD a2) a)
        acc
      = (blockLines bs).foldl (fun a line => (lineHit old line).getD a) acc from
    key blocks 12
  intro bs
  induction bs with
  | nil => intro acc; rfl
  | cons b rest ih =>
    intro acc
    cases b with
    | none => simpa [blockLines] using ih acc
    | some ls =>
      simp only [List.foldl_cons, blockLines, List.foldl_append]
      exact ih _

theorem lineHit_eq_none_iff (old : String) (line : Line) :
    lineHit old line = none ↔ ∀ sp ∈ line, spanMatches old sp = false := by
  simp [lineHit, List.find?_eq_none]

theorem lineHit_isSome_iff (old : String) (line : Line) :
    (lineHit old line).isSome = true ↔ ∃ sp ∈ line, spanMatches old sp = true := by
  simp [lineHit, List.find?_isSome]

theorem foldHit_of_none (old : String) :
    ∀ (L : List Line) (acc : ℚ), (∀ line ∈ L, lineHit old line = none) →
      L.foldl (fun a line => (lineHit old line).getD a) acc = acc := by
  intro L
  induction L with
  | nil => intro acc _; rfl
  | cons l rest ih =>
    intro acc h
    have hl : lineHit old l = none := h l (List.mem_cons_self l rest)
    simp only [List.foldl_cons, hl, Option.getD_none]
    exact ih acc fun line hm => h line (List.mem_cons_of_mem l hm)

theorem foldHit_mem (old : String) :
    ∀ (L : List Line) (acc : ℚ),
      L.foldl (fun a line => (lineHit old line).getD a) acc = acc ∨
      ∃ line ∈ L, ∃ sp ∈ line, spanMatches old sp = true ∧
        L.foldl (fun a line => (lineHit old line).getD a) acc = spanSize sp := by
  intro L
  induction L with
  | nil => intro acc; exact Or.inl rfl
  | cons l rest ih =>
    intro acc
    simp only [List.foldl_cons]
    cases hl : lineHit old l with
    | none =>
      simp only [Option.getD_none]
      rcases ih acc with h | ⟨line, hm, sp, hsp, hmat, heq⟩
      · exact Or.inl h
      · exact Or.inr ⟨line, List.mem_cons_of_mem l hm, sp, hsp, hmat, heq⟩
    | some q =>
      simp only [Option.getD_some]
      obtain ⟨sp, hfind, hq⟩ : ∃ sp, l.find? (spanMatches old) = some sp ∧
          spanSize sp = q := by
        simpa [lineHit, Option.map_eq_some'] using hl
      have hspmem : sp ∈ l := List.mem_of_find?_eq_some hfind
      have hspmat : spanMatches old sp = true := List.find?_some hfind
      rcases ih q with h | ⟨line, hm, sp2, hsp2, hmat2, heq2⟩
      · exact Or.inr ⟨l, List.mem_cons_self l rest, sp, hspmem, hspmat,
          by rw [h, ← hq]⟩
      · exact Or.inr ⟨line, List.mem_cons_of_mem l hm, sp2, hsp2, hmat2, heq2⟩

theorem foldHit_hit (old : String) :
    ∀ (L : List Line) (acc : ℚ), (∃ line ∈ L, (lineHit old line).isSome = true) →
      ∃ line ∈ L, ∃ sp ∈ line, spanMatches old sp = true ∧
        L.foldl (fun a line => (lineHit old line).getD a) acc = spanSize sp := by
  intro L
  induction L with
  | nil => intro acc h; simp at h
  | cons l rest ih =>
    intro acc h
    simp only [List.foldl_cons]
    cases hl : lineHit old l with
    | none =>
      simp only [Option.getD_none]
      have hrest : ∃ line ∈ rest, (lineHit old line).isSome = true := by
        rcases h with ⟨line, hm, hsome⟩
        rcases List.mem_cons.mp hm with rfl | hm2
        · rw [hl] at hsome; simp at hsome
        · exact ⟨line, hm2, hsome⟩
      obtain ⟨line, hm, sp, hsp, hmat, heq⟩ := ih acc hrest
      exact ⟨line, List.mem_cons_of_mem l hm, sp, hsp, hmat, heq⟩
    | some q =>
      simp only [Option.getD_some]
      obtain ⟨sp, hfind, hq⟩ : ∃ sp, l.find? (spanMatches old) = some sp ∧
          spanSize sp = q := by
        simpa [lineHit, Option.map_eq_some'] using hl
      have hspmem : sp ∈ l := List.mem_of_find?_eq_some hfind
      have hspmat : spanMatches old sp = true := List.find?_some hfind
      rcases foldHit_mem old rest q with h2 | ⟨line, hm, sp2, hsp2, hmat2, heq2⟩
      · exact ⟨l, List.mem_cons_self l rest, sp, hspmem, hspmat, by rw [h2, ← hq]⟩
      · exact ⟨line, List.mem_cons_of_mem l hm, sp2, hsp2, hmat2, heq2⟩

theorem mem_blockLines :
    ∀ (blocks : List Block) (line : Line),
      line ∈ blockLines blocks ↔ ∃ ls, some ls ∈ blocks ∧ line ∈ ls := by
  intro blocks
  induction blocks with
  | nil => simp [blockLines]
  | cons b rest ih =>
    intro line
    cases b with
    | none =>
      simp only [blockLines, ih, List.mem_cons]
      constructor
      · rintro ⟨ls, hm, hl⟩
        exact ⟨ls, Or.inr hm, hl⟩
      · rintro ⟨ls, hm | hm, hl⟩
        · exact absurd hm (Option.some_ne_none ls)
        · exact ⟨ls, hm, hl⟩
    | some ls0 =>
      simp only [blockLines, List.mem_append, ih, List.mem_cons]
      constructor
      · rintro (hl | ⟨ls, hm, hl⟩)
        · exact ⟨ls0, Or.inl rfl, hl⟩
        · exact ⟨ls, Or.inr hm, hl⟩
      · rintro ⟨ls, hm | hm, hl⟩
        · have hls : ls = ls0 := Option.some_injective _ hm
          exact Or.inl (hls ▸ hl)
        · exact Or.inr ⟨ls, hm, hl⟩

/-- When no span of the snapshot contains `old_text`, the inferred size is
the default 12. -/
theorem inferFontSize_default (old : String) (blocks : List Block)
    (h : ∀ sp, SpanIn sp blocks → spanMatches old sp = false) :
    inferFontSize old blocks = 12 := by
  rw [inferFontSize_eq]
  apply foldHit_of_none
  intro line hline
  rw [lineHit_eq_none_iff]
  intro sp hsp
  obtain ⟨ls, hls, hlm⟩ := (mem_blockLines blocks line).mp hline
  exact h sp ⟨ls, hls, line, hlm, hsp⟩

/-- When some span of the snapshot contains `old_text`, the inferred size
is the recorded size of one of the matching spans. -/
theorem inferFontSize_hit (old : String) (blocks : List Block)
    (h : ∃ sp, SpanIn sp blocks ∧ spanMatches old sp = true) :
    ∃ sp, SpanIn sp blocks ∧ spanMatches old sp = true ∧
      inferFontSize old blocks = spanSize sp := by
  rw [inferFontSize_eq]
  obtain ⟨sp, ⟨ls, hls, line, hlm, hsp⟩, hmat⟩ := h
  have hlines : ∃ l ∈ blockLines blocks, (lineHit old l).isSome = true := by
    refine ⟨line, (mem_blockLines blocks line).mpr ⟨ls, hls, hlm⟩, ?_⟩
    rw [lineHit_isSome_iff]
    exact ⟨sp, hsp, hmat⟩
  obtain ⟨l, hlmem, sp2, hsp2, hmat2, heq2⟩ := foldHit_hit old (blockLines blocks) 12 hlines
  obtain ⟨ls2, hls2, hlm2⟩ := (mem_blockLines blocks l).mp hlmem
  exact ⟨sp2, ⟨ls2, hls2, l, hlm2, hsp2⟩, hmat2, heq2⟩

theorem batchOutputs_length_le (old new : String) :
    ∀ files : List DiskFile,
      (batchOutputs old new files).length ≤ (files.filter isSupported).length := by
  intro files
  induction files with
  | nil => simp [batchOutputs]
  | cons f rest ih =>
    simp only [batchOutputs, List.filter_cons]
    cases hs : isSupported f with
    | false => simpa [hs] using ih
    | true =>
      simp only [hs, if_true]
      cases hpf : process_single_file f old new with
      | none => simpa using Nat.le_succ_of_le ih
      | some p =>
        cases hpe : p.isEmpty with
        | true => simpa [hpe] using Nat.le_succ_of_le ih
        | false => simpa [hpe] using Nat.succ_le_succ ih

/-! ## The claims -/

/-- C1: the text-substitution primitive (Python `str.replace`, applied to
every CSV/XPT cell and every XML text, tail and attribute value) replaces
every non-overlapping, left-to-right occurrence of `old_text` by
`new_text`, matched as an exact case-sensitive substring: a value without
an occurrence is returned unchanged, and a value whose leftmost occurrence
sits at position `a.length` becomes `a ++ new_text ++` the rest processed
after the consumed match; on the table with cells
`["foo","bar"],["foo2","baz"]`, replacing `"foo"` by `"qux"` yields cells
`["qux","bar"],["qux2","baz"]` (substring match, not whole-cell match). -/
theorem c1_substitution_primitive (old new s a b : List Char) (hold : old ≠ []) :
    (containsSub old s = false → pyReplaceL old new s = s) ∧
    ((∀ k, k < a.length → old.isPrefixOf ((a ++ old ++ b).drop k) = false) →
      pyReplaceL old new (a ++ old ++ b) = a ++ new ++ pyReplaceL old new b) ∧
    replace_text_in_csv
        { path := "t.csv", asPdf := none,
          asCsv := some { columns := ["A", "B"],
                          rows := [[some "foo", some "bar"],
                                   [some "foo2", some "baz"]] },
          asXml := none, asXpt := none } "foo" "qux"
      = some { outPath := "t_modified.csv", header := ["A", "B"],
               rows := [["qux", "bar"], ["qux2", "baz"]] } := by
  refine ⟨fun h => pyReplaceL_of_not_contains old new hold s h,
    fun h => pyReplaceL_leftmost old new hold a b h, ?_⟩
  decide

/-- Witness for C1 at `old_text = "foo"`, `new_text = "qux"`. -/
theorem c1_substitution_primitive_witness :
    (containsSub "foo".data "bar".data = false →
      pyReplaceL "foo".data "qux".data "bar".data = "bar".data) ∧
    ((∀ k, k < ([] : List Char).length →
        "foo".data.isPrefixOf
          ((([] : List Char) ++ "foo".data ++ ([] : List Char)).drop k) = false) →
      pyReplaceL "foo".data "qux".data
          (([] : List Char) ++ "foo".data ++ ([] : List Char)) =
        ([] : List Char) ++ "qux".data ++
          pyReplaceL "foo".data "qux".data ([] : List Char)) ∧
    replace_text_in_csv
        { path := "t.csv", asPdf := none,
          asCsv := some { columns := ["A", "B"],
                          rows := [[some "foo", some "bar"],
                                   [some "foo2", some "baz"]] },
          asXml := none, asXpt := none } "foo" "qux"
      = some { outPath := "t_modified.csv", header := ["A", "B"],
               rows := [["qux", "bar"], ["qux2", "baz"]] } :=
  c1_substitution_primitive "foo".data "qux".data "bar".data [] [] (by decide)

/-- C2 (counterexample): inside `process_single_file`, an unrecognized
extension (`doc.txt`: no attempt made) and a recognized extension whose
attempt raises (`doc.pdf` that `fitz.open` cannot open) both return the
same value `none`; the two outcomes are equal, so the caller of the
dispatcher cannot tell the cases apart from the result. -/
theorem c2_counterexample :
    process_single_file
        { path := "doc.txt", asPdf := none, asCsv := none, asXml := none,
          asXpt := none } "a" "b" = none ∧
    process_single_file
        { path := "doc.pdf", asPdf := none, asCsv := none, asXml := none,
          asXpt := none } "a" "b" = none ∧
    process_single_file
        { path := "doc.txt", asPdf := none, asCsv := none, asXml := none,
          asXpt := none } "a" "b" =
      process_single_file
        { path := "doc.pdf", asPdf := none, asCsv := none, asXml := none,
          asXpt := none } "a" "b" :=
  ⟨rfl, rfl, rfl⟩

/-- C2 (amended): an unrecognized extension makes `process_single_file`
return `None` without attempting any handler; however `None` is also the
value a recognized extension produces when its handler fails, so the two
outcomes coincide and are not distinguishable from the returned value
(they are distinguished only in the log and by the upload route, which
rejects unsupported extensions before dispatching). -/
theorem c2_unsupported_returns_none (f : DiskFile) (old new : String)
    (h : fileExt f.path ∉ supported_extensions) :
    process_single_file f old new = none := by
  simp only [supported_extensions, List.mem_cons, List.not_mem_nil, or_false,
    not_or] at h
  obtain ⟨h1, h2, h3, h4⟩ := h
  simp [process_single_file, h1, h2, h3, h4]

/-- Witness for C2 (amended) at a `.txt` file. -/
theorem c2_unsupported_returns_none_witness :
    process_single_file
        { path := "notes.txt", asPdf := none, asCsv := none, asXml := none,
          asXpt := none } "a" "b" = none :=
  c2_unsupported_returns_none
    { path := "notes.txt", asPdf := none, asCsv := none, asXml := none,
      asXpt := none } "a" "b" (by decide)

/-- C3: for every archive that unpacks successfully the batch returns
normally — a member whose processing fails is skipped, never aborts the
batch — the number of collected outputs is at most the number of members
with a supported extension, and when no member produced output the batch
returns the value `none` rather than raising. -/
theorem c3_batch_partial_failure (z : ZipArchive) (files : List DiskFile)
    (old new : String) (h : z.entries = some files) :
    (∃ r, (extract_zip_and_process z old new).result = Except.ok r) ∧
    (extract_zip_and_process z old new).outputs.length ≤
      (files.filter isSupported).length ∧
    ((extract_zip_and_process z old new).outputs = [] →
      (extract_zip_and_process z old new).result = Except.ok none) := by
  obtain ⟨path, entries⟩ := z
  simp only at h
  subst h
  refine ⟨⟨_, rfl⟩, ?_, ?_⟩
  · simpa [extract_zip_and_process] using batchOutputs_length_le old new files
  · intro hout
    simp only [extract_zip_and_process] at hout ⊢
    have hempty : (batchOutputs old new files).isEmpty = true := by
      rw [List.isEmpty_iff]
      exact hout
    rw [if_pos hempty]

/-- Witness for C3: a batch with one unreadable CSV member (skipped), one
readable CSV member (processed) and one unsupported member. -/
theorem c3_batch_partial_failure_witness :
    (∃ r, (extract_zip_and_process
        { path := "a.zip", entries := some
            [{ path := "bad.csv", asPdf := none, asCsv := none, asXml := none,
               asXpt := none },
             { path := "ok.csv", asPdf := none,
               asCsv := some { columns := ["A"], rows := [[some "x"]] },
               asXml := none, asXpt := none },
             { path := "skip.txt", asPdf := none, asCsv := none, asXml := none,
               asXpt := none }] } "x" "y").result = Except.ok r) ∧
    (extract_zip_and_process
        { path := "a.zip", entries := some
            [{ path := "bad.csv", asPdf := none, asCsv := none, asXml := none,
               asXpt := none },
             { path := "ok.csv", asPdf := none,
               asCsv := some { columns := ["A"], rows := [[some "x"]] },
               asXml := none, asXpt := none },
             { path := "skip.txt", asPdf := none, asCsv := none, asXml := none,
               asXpt := none }] } "x" "y").outputs.length ≤
      (List.filter isSupported
          [{ path := "bad.csv", asPdf := none, asCsv := none, asXml := none,
             asXpt := none },
           { path := "ok.csv", asPdf := none,
             asCsv := some { columns := ["A"], rows := [[some "x"]] },
             asXml := none, asXpt := none },
           { path := "skip.txt", asPdf := none, asCsv := none, asXml := none,
             asXpt := none }]).length ∧
    ((extract_zip_and_process
        { path := "a.zip", entries := some
            [{ path := "bad.csv", asPdf := none, asCsv := none, asXml := none,
               asXpt := none },
             { path := "ok.csv", asPdf := none,
               asCsv := some { columns := ["A"], rows := [[some "x"]] },
               asXml := none, asXpt := none },
             { path := "skip.txt", asPdf := none, asCsv := none, asXml := none,
               asXpt := none }] } "x" "y").outputs = [] →
      (extract_zip_and_process
        { path := "a.zip", entries := some
            [{ path := "bad.csv", asPdf := none, asCsv := none, asXml := none,
               asXpt := none },
             { path := "ok.csv", asPdf := none,
               asCsv := some { columns := ["A"], rows := [[some "x"]] },
               asXml := none, asXpt := none },
             { path := "skip.txt", asPdf := none, asCsv := none, asXml := none,
               asXpt := none }] } "x" "y").result = Except.ok none) :=
  c3_batch_partial_failure
    { path := "a.zip", entries := some
        [{ path := "bad.csv", asPdf := none, asCsv := none, asXml := none,
           asXpt := none },
         { path := "ok.csv", asPdf := none,
           asCsv := some { columns := ["A"], rows := [[some "x"]] },
           asXml := none, asXpt := none },
         { path := "skip.txt", asPdf := none, asCsv := none, asXml := none,
           asXpt := none }] }
    [{ path := "bad.csv", asPdf := none, asCsv := none, asXml := none,
       asXpt := none },
     { path := "ok.csv", asPdf := none,
       asCsv := some { columns := ["A"], rows := [[some "x"]] },
       asXml := none, asXpt := none },
     { path := "skip.txt", asPdf := none, asCsv := none, asXml := none,
       asXpt := none }] "x" "y" rfl

/-- C4: the scratch directory is removed on every exit path of
`extract_zip_and_process` — normal return and propagated exception alike
(the `finally` block) — and when the container itself cannot be unpacked
the failure propagates to the caller before any member is processed. -/
theorem c4_scratch_removed (z : ZipArchive) (old new : String) :
    (extract_zip_and_process z old new).scratchRemoved = true ∧
    (z.entries = none →
      (extract_zip_and_process z old new).result = Except.error () ∧
      (extract_zip_and_process z old new).outputs = []) := by
  obtain ⟨path, entries⟩ := z
  cases entries with
  | none => exact ⟨rfl, fun _ => ⟨rfl, rfl⟩⟩
  | some files => exact ⟨rfl, fun h => by simp at h⟩

/-- C5: both tabular passes (CSV and XPT) keep the column names, the
column order, the row count and every row length of the loaded table,
including for a zero-row table (the statement quantifies over every
`DataFrame`, `rows = []` included). -/
theorem c5_tabular_shape (path : String) (df : DataFrame)
    (metaName old new : String) :
    (csvPayload path df old new).header = df.columns ∧
    (csvPayload path df old new).rows.length = df.rows.length ∧
    (csvPayload path df old new).rows.map List.length =
      df.rows.map List.length ∧
    (xptPayload path df metaName old new).header = df.columns ∧
    (xptPayload path df metaName old new).rows.length = df.rows.length ∧
    (xptPayload path df metaName old new).rows.map List.length =
      df.rows.map List.length := by
  refine ⟨rfl, by simp [csvPayload], ?_, rfl, by simp [xptPayload], ?_⟩ <;>
    simp [csvPayload, xptPayload, List.map_map, Function.comp]

/-- C6: the XML pass preserves the number of elements and the whole
structural skeleton — tags, attribute names and order, element order and
nesting — changing only string content (text, tail, attribute values). -/
theorem c6_markup_shape (old new : String) (e : XmlElem) :
    countElems (replace_in_element old new e) = countElems e ∧
    skeleton (replace_in_element old new e) = skeleton e :=
  ⟨countElems_replace old new e, skeleton_replace old new e⟩

/-- C7: the replacement text on a PDF page is inserted at the size
inferred from the structured-text snapshot taken before any mutation: the
recorded size of a span whose text contains `old_text` when one exists,
the default 12 otherwise; the computation reads only the snapshot, never
the post-redaction layout (`postBlocks` is irrelevant to the output), and
every insertion of the page carries that inferred size. -/
theorem c7_pdf_fontsize (old new : String) (blocks : List Block)
    (found : List Rect) (post post2 : List Block) :
    ((∀ sp, SpanIn sp blocks → spanMatches old sp = false) →
      inferFontSize old blocks = 12) ∧
    ((∃ sp, SpanIn sp blocks ∧ spanMatches old sp = true) →
      ∃ sp, SpanIn sp blocks ∧ spanMatches old sp = true ∧
        inferFontSize old blocks = spanSize sp) ∧
    processPage old new { found := found, blocks := blocks, postBlocks := post } =
      processPage old new
        { found := found, blocks := blocks, postBlocks := post2 } ∧
    (∀ ins ∈ processPage old new
        { found := found, blocks := blocks, postBlocks := post },
      ins.fontsize = inferFontSize old blocks ∧ ins.text = new ∧
        ins.fontname = "Times-Roman") := by
  refine ⟨inferFontSize_default old blocks, inferFontSize_hit old blocks, rfl, ?_⟩
  intro ins hins
  simp only [processPage] at hins
  by_cases hf : found.isEmpty = true
  · rw [if_pos hf] at hins
    simp at hins
  · rw [if_neg hf] at hins
    obtain ⟨r, _, rfl⟩ := List.mem_map.mp hins
    exact ⟨rfl, rfl, rfl⟩

/-- C8 (counterexample): an entirely empty tabular input — a zero-byte
CSV file, the only file with no rows and no columns — cannot be loaded:
`pd.read_csv` raises `EmptyDataError` ("No columns to parse from file"),
so the file's parse result is `none` and `replace_text_in_csv` catches
the error and returns `None`, the failure outcome, not an output.  The
claimed success is contradicted by the code. -/
theorem c8_counterexample :
    replace_text_in_csv
        { path := "empty.csv", asPdf := none, asCsv := none, asXml := none,
          asXpt := none } "a" "b" = none :=
  rfl

/-- C8 (amended): for an entirely empty tabular input the CSV replacement
fails — whatever the file's path, an input whose CSV parse raises (as the
empty file's does) yields `None` — whereas every table the reader does
load round-trips without error: a loaded zero-row frame is written back
with its columns and no rows. -/
theorem c8_empty_table_amended (path : String) (cols : List String)
    (old new : String) :
    replace_text_in_csv
        { path := path, asPdf := none, asCsv := none, asXml := none,
          asXpt := none } old new = none ∧
    replace_text_in_csv
        { path := "t.csv", asPdf := none,
          asCsv := some { columns := cols, rows := [] }, asXml := none,
          asXpt := none } old new
      = some { outPath := "t_modified.csv", header := cols, rows := [] } := by
  have hp : pyReplace "t.csv" ".csv" "_modified.csv" = "t_modified.csv" := by
    decide
  exact ⟨rfl, by simp [replace_text_in_csv, csvPayload, hp]⟩

/-- C9 (counterexample): take source `"aba"`, `old_text = "b"`,
`new_text = "aa"`.  The replacement text occurs nowhere in the source and
`old_text` has no other occurrence to collide with, yet the first pass
gives `"aaaa"` and the second pass gives `"bb"`, not the original: the
claimed precondition is too weak, because the inserted copies of
`new_text` merge with neighbouring characters into new matches. -/
theorem c9_counterexample :
    strContains "aa" "aba" = false ∧
    pyReplace "aba" "b" "aa" = "aaaa" ∧
    pyReplace (pyReplace "aba" "b" "aa") "aa" "b" = "bb" ∧
    ("bb" : String) ≠ "aba" := by
  decide

/-- C9 (amended): applying `old_text → new_text` and then
`new_text → old_text` restores the original textual content provided
`old_text` and `new_text` are non-empty and no character of `new_text`
occurs in the original content (so the inserted replacements are the only
matches the second pass can find); this holds for the string primitive,
for every table of cells, and for every XML tree. -/
theorem c9_two_pass_inversion (old new : String) (hold : old.data ≠ [])
    (hnew : new.data ≠ []) :
    (∀ s : String, noNewChars new s = true →
      pyReplace (pyReplace s old new) new old = s) ∧
    (∀ rows : List (List String),
      (∀ r ∈ rows, ∀ cell ∈ r, noNewChars new cell = true) →
        (rows.map (List.map fun c => pyReplace c old new)).map
          (List.map fun c => pyReplace c new old) = rows) ∧
    (∀ e : XmlElem, elemNoNew new e = true →
      replace_in_element new old (replace_in_element old new e) = e) :=
  ⟨fun s hs => pyReplace_roundtrip old new s hold hnew hs,
   fun rows h => cells_roundtrip old new hold hnew rows h,
   fun e he => replace_in_element_roundtrip old new hold hnew e he⟩

/-- Witness for C9 (amended) at `old_text = "foo"`, `new_text = "qux"`. -/
theorem c9_two_pass_inversion_witness :
    (∀ s : String, noNewChars "qux" s = true →
      pyReplace (pyReplace s "foo" "qux") "qux" "foo" = s) ∧
    (∀ rows : List (List String),
      (∀ r ∈ rows, ∀ cell ∈ r, noNewChars "qux" cell = true) →
        (rows.map (List.map fun c => pyReplace c "foo" "qux")).map
          (List.map fun c => pyReplace c "qux" "foo") = rows) ∧
    (∀ e : XmlElem, elemNoNew "qux" e = true →
      replace_in_element "qux" "foo" (replace_in_element "foo" "qux" e) = e) :=
  c9_two_pass_inversion "foo" "qux" (by decide) (by decide)

/-- C10: the CSV pass writes the header row back unchanged even when a
column name contains `old_text` — substitution touches data cells only,
never column names (here the column `"foo"` survives while the cell
`"foo"` becomes `"qux"`). -/
theorem c10_header_unchanged (path : String) (df : DataFrame)
    (old new : String) :
    (csvPayload path df old new).header = df.columns ∧
    csvPayload "cols.csv"
        { columns := ["foo", "bar"], rows := [[some "foo", some "x"]] }
        "foo" "qux"
      = { outPath := "cols_modified.csv", header := ["foo", "bar"],
          rows := [["qux", "x"]] } :=
  ⟨rfl, by decide⟩

end TextReplacer
